import Mathlib

/-!
Verification of the `fs` endpoint of cells-sync (`src/endpoint/fs/fs.go`):
a shallow embedding of the watch pipeline (raw-event translation, the
growable event buffer `PipeChan`), the path normalisation installed in
`init()`, and the node CRUD layer (`CreateNode`, `UpdateNode`,
`GetWriterOn`, `MoveNode`/`moveRecursively`, `Watch` shutdown), together
with theorems settling the specification claims about them.

Machine integers (`int64` sizes) are modelled as `Int`; Go's
`(value, error)` returns are modelled as `Except`; a function that may
return "nothing happened" is modelled with `Option`.
-/

/-! ## Raw notify events (rjeczalik/notify)

The notify library is an external dependency; its portable event
constants are single bits: `Create = 1`, `Remove = 2`, `Write = 4`,
`Rename = 8`.  An event carries a bitmask (`Nat` here). -/

def notifyCreate : Nat := 1
def notifyRemove : Nat := 2
def notifyWrite : Nat := 4
def notifyRename : Nat := 8

/-- Go `EventTypeCreate` from fs.go line 68. -/
def EventTypeCreate : List Nat := [notifyCreate]

/-- Go `EventTypeWrite` from fs.go line 70. -/
def EventTypeWrite : List Nat := [notifyWrite]

/-- Go `EventTypeRename` from fs.go line 72. -/
def EventTypeRename : List Nat := [notifyRename]

/-- Go `EventTypeDelete` from fs.go line 74. -/
def EventTypeDelete : List Nat := [notifyRemove]

/-- Go `isEventType` (fs.go lines 142-149): the loop returns true as soon as
`event & ev != 0` for some `ev` in the list. -/
def isEventType (eventType : List Nat) (event : Nat) : Bool :=
  eventType.any (fun ev => event &&& ev != 0)

/-! ## Stat results

`afero.Fs.Stat` returns `(os.FileInfo, error)`.  The translator only
distinguishes "not found" (`os.IsNotExist`) from any other error, and
only reads `Size()` and `IsDir()` from a successful stat. -/

inductive StatErr : Type where
  | notFound : StatErr
  | other : String → StatErr
deriving DecidableEq, Repr

structure FInfo : Type where
  size : Int
  isDir : Bool
deriving DecidableEq, Repr

/-! ## Domain events (pydio `common` package, modelled from the spec)

The `common` package is not part of this repository's sources; the spec's
data model gives `ChangeEvent.type : enum \x7bCreate, Write, Rename, Remove\x7d`.
`common.EventCreate`, `common.EventWrite`, `common.EventRename` and
`common.EventRemove` are modelled as the four distinct constructors. -/

inductive EventType : Type where
  | create : EventType
  | write : EventType
  | rename : EventType
  | remove : EventType
deriving DecidableEq, Repr

/-- Go `common.EventInfo` restricted to the fields fs.go sets
(`PathSyncSource`, a back-pointer, is omitted).  The Go zero values of
`Size`/`Folder` are `0`/`false`. -/
structure EventInfo : Type where
  time : String
  size : Int
  folder : Bool
  path : String
  type : EventType
deriving DecidableEq, Repr

/-- A raw notification: `notify.EventInfo` exposes `Path()` and
`Event()`. -/
structure RawEvent : Type where
  path : String
  event : Nat
deriving DecidableEq, Repr

/-- Go `strings.TrimPrefix` on strings (character-list semantics, so that
the kernel can evaluate it). -/
def goTrimPrefixStr (s pre : String) : String :=
  if pre.data.isPrefixOf s.data then { data := s.data.drop pre.data.length } else s

/-- Go `notifyEventToEventInfo` (fs.go lines 175-238).

Parameters abstract the context of the call: `canon` is `CanonicalPath`
(identity off Windows, symlink resolution on Windows), `norm` is the
platform `normalize` function installed by `init()`, `stat` is
`c.FS.Stat`, `nowT` the timestamp `now()` would produce, `root` is
`c.RootPath`.  The Go pair `(eventInfo, err)` becomes
`Except StatErr (Option EventInfo)`: `(empty, nil)` is `.ok none`,
`(empty, e)` is `.error e`, and a real event is `.ok (some _)`. -/
def notifyEventToEventInfo (canon norm : String → String)
    (stat : String → Except StatErr FInfo) (nowT root : String)
    (ev : RawEvent) : Except StatErr (Option EventInfo) :=
  let eventPath := goTrimPrefixStr (canon ev.path) root
  let normalizedPath := norm eventPath
  if isEventType EventTypeCreate ev.event || isEventType EventTypeWrite ev.event then
    match stat eventPath with
    | .error .notFound => .ok none
    | .error e => .error e
    | .ok i =>
        .ok (some { time := nowT, size := i.size, folder := i.isDir,
                    path := normalizedPath, type := .create })
  else if isEventType EventTypeRename ev.event then
    match stat eventPath with
    | .error .notFound =>
        .ok (some { time := nowT, size := 0, folder := false,
                    path := normalizedPath, type := .remove })
    | .error e => .error e
    | .ok i =>
        .ok (some { time := nowT, size := i.size, folder := i.isDir,
                    path := normalizedPath, type := .rename })
  else if isEventType EventTypeDelete ev.event then
    .ok (some { time := nowT, size := 0, folder := false,
                path := normalizedPath, type := .remove })
  else
    .ok none

/-! ## Test fixtures for the translator -/

/-- A stat oracle that finds a 2-byte regular file at every path. -/
def statOkFile : String → Except StatErr FInfo := fun _ => .ok { size := 2, isDir := false }

/-- A stat oracle that reports not-found at every path. -/
def statNotFound : String → Except StatErr FInfo := fun _ => .error .notFound

/-- A stat oracle that fails with a non-not-found error at every path. -/
def statDenied : String → Except StatErr FInfo := fun _ => .error (.other "permission denied")

/-! ## Claim C2: `PipeChan` (fs.go lines 81-133), the growable event buffer

`PipeChan` runs two goroutines around a queue of segment channels.  The
producer goroutine appends every element of `inputCh`, in order, to a
"current" segment channel, sealing the segment (and starting a fresh one
of doubled or halved capacity) according to its momentary fill level
`len(currCh)`; sealed segments are handed to the drainer through the
`channels` queue in creation order.  The drainer empties each segment in
creation order onto `outputCh` and closes `outputCh` after the last one.

The shallow embedding records, per segment, the full list of elements
ever sent into it; `len(currCh)` equals the elements sent minus the
elements the drainer has already removed, and the latter quantity depends
on scheduling, so the model takes it as an arbitrary oracle `d1`/`d2`
(one observation per `if` in the loop body).  The emitted output stream
is the concatenation of the segments in creation order followed by the
still-open current segment. -/

structure PipeState (ε : Type) : Type where
  segs : List (List ε)
  curr : List ε
  cap : Nat

/-- One iteration of the producer loop `for elem := range inputCh`
(fs.go lines 95-112).  `d1`, `d2` are the drained-element counts at the
two `len(currCh)` reads. -/
def pipeStep {ε : Type} (capacity : Nat) (s : PipeState ε) (elem : ε)
    (d1 d2 : Nat) : PipeState ε :=
  let s1 := if s.curr.length - d1 ≥ s.cap / 2 then
      { segs := s.segs ++ [s.curr], curr := [], cap := s.cap * 2 }
    else s
  let s2 := if s1.curr.length - d2 ≥ capacity ∧ s1.curr.length - d2 ≤ s1.cap / 4 then
      { segs := s1.segs ++ [s1.curr], curr := [], cap := s1.cap / 2 }
    else s1
  { s2 with curr := s2.curr ++ [elem] }

/-- The producer loop over the whole input, with a drain-schedule oracle
indexed by loop iteration. -/
def pipeRun {ε : Type} (capacity : Nat) (s : PipeState ε) :
    List ε → (Nat → Nat × Nat) → PipeState ε
  | [], _ => s
  | e :: rest, sched =>
      pipeRun capacity (pipeStep capacity s e (sched 0).1 (sched 0).2) rest
        (fun n => sched (n + 1))

/-- The initial state: the first segment channel `make(..., capacity)`
(fs.go line 92). -/
def pipeInit (ε : Type) (capacity : Nat) : PipeState ε :=
  { segs := [], curr := [], cap := capacity }

/-- Everything the drainer goroutine sends to `outputCh` before closing
it: the sealed segments in creation order, then the current segment,
which the end of the producer loop seals (fs.go lines 114-115, 120-131). -/
def pipeOutput {ε : Type} (s : PipeState ε) : List ε :=
  s.segs.flatten ++ s.curr

/-! ## Node CRUD layer (claims C7, C8, C10)

The storage backend (`afero.Fs`) is external to the repository; it is
modelled from the storage-backend contract of the spec (stat,
open-for-read, open-for-write/create, mkdir-all, rename, …).  A path is a
list of components (the CRUD layer works on already-denormalized native
paths); the state is the set of directories plus the files with their
content. -/

abbrev Seg := List String

structure FSState : Type where
  dirs : List Seg
  files : List (Seg × String)
deriving DecidableEq, Repr

/-- Go `Stat` succeeds exactly on a path present as a directory or a file;
otherwise it fails with not-found (`os.IsNotExist`). -/
def statExists (s : FSState) (p : Seg) : Bool :=
  s.dirs.contains p || (s.files.map Prod.fst).contains p

/-- Go `MkdirAll(path, 0777)`: creates the directory and all missing
ancestors (every non-empty prefix of the path). -/
def mkdirAll (s : FSState) (p : Seg) : FSState :=
  { s with dirs := p.inits.filter (fun q => !q.isEmpty) ++ s.dirs }

/-- Go `afero.WriteFile`: create or truncate the file with the given
content. -/
def writeFile (s : FSState) (p : Seg) (content : String) : FSState :=
  { s with files := (p, content) :: s.files.filter (fun q => q.1 ≠ p) }

/-- Go `tree.Node` restricted to the fields `CreateNode`/`UpdateNode` read:
`Path`, `Type` and `Uuid` (the spec's `identifier` for a Collection). -/
inductive NodeType : Type where
  | leaf : NodeType
  | collection : NodeType
deriving DecidableEq, Repr

structure TreeNode : Type where
  path : Seg
  type : NodeType
  uuid : String
deriving DecidableEq, Repr

/-- Go `node.IsLeaf()`: the node type is LEAF. -/
def TreeNode.IsLeaf (n : TreeNode) : Bool := n.type = .leaf

/-- The hidden per-directory marker file name. -/
def pydioMarker : String := ".__pydio"

/-- Go `CreateNode` (fs.go lines 342-355).  A leaf is rejected; otherwise
the path is stat-ed and, only when it does not exist, the directory (and
missing ancestors) is created and, if a non-empty `Uuid` was supplied,
the marker file is written with it.  The unused `updateIfExists`
parameter is kept from the Go signature. -/
def CreateNode (s : FSState) (n : TreeNode) (_updateIfExists : Bool) :
    Except String FSState :=
  if n.IsLeaf then
    .error "This is a DataSyncTarget, use PutNode for leafs instead of CreateNode"
  else
    let fPath := n.path
    if statExists s fPath then .ok s
    else
      let s1 := mkdirAll s fPath
      let s2 := if n.uuid ≠ "" then writeFile s1 (fPath ++ [pydioMarker]) n.uuid else s1
      .ok s2

/-- Go `UpdateNode` (fs.go lines 357-359): delegates to `CreateNode`. -/
def UpdateNode (s : FSState) (n : TreeNode) : Except String FSState :=
  CreateNode s n true

/-- How a file handle was opened.  Per the storage contract (and
`os.Open`), `afero.Fs.Open` opens for reading only; `Create` creates or
truncates and opens for writing. -/
inductive OpenMode : Type where
  | readOnly : OpenMode
  | createWrite : OpenMode
deriving DecidableEq, Repr

/-- Go `GetWriterOn` (fs.go lines 419-432): stat the path; `FS.Create` when
it does not exist, `FS.Open` when it does. -/
def GetWriterOn (s : FSState) (p : Seg) : OpenMode × FSState :=
  if statExists s p then (.readOnly, s)
  else (.createWrite, writeFile s p "")

/-- The empty storage state. -/
def fsEmpty : FSState := { dirs := [], files := [] }

/-! ## Claim C5: the path normalizer installed by `init()` (fs.go 35-60)

Paths are character lists.  `common.InternalPathSeparator` is the forward
slash; `os.PathSeparator` on Windows is the backslash.  `init()` assigns
`normalize`/`denormalize` only in the `darwin` and `windows` cases of the
`runtime.GOOS` switch — on any other platform both function variables
stay nil, modelled as `none`. -/

abbrev CPath := List Char

/-- The `path` closure in `init()` (fs.go lines 36-38):
`fmt.Sprintf("/%v", strings.TrimLeft(p, common.InternalPathSeparator))`. -/
def goPathFn (p : CPath) : CPath :=
  '/' :: p.dropWhile (fun c => c == '/')

def sepToSlash (c : Char) : Char := if c = '\\' then '/' else c

def slashToSep (c : Char) : Char := if c = '/' then '\\' else c

/-- Go `normalize` in the `win` case (fs.go lines 50-53):
`strings.Replace(path(p), os.PathSeparator, InternalPathSeparator, -1)`. -/
def normalizeWin (p : CPath) : CPath := (goPathFn p).map sepToSlash

/-- Go `denormalize` in the `win` case (fs.go lines 55-58). -/
def denormalizeWin (p : CPath) : CPath := (goPathFn p).map slashToSep

inductive GoOS : Type where
  | darwin : GoOS
  | windows : GoOS
  | linux : GoOS
  | otherOS : GoOS
deriving DecidableEq, Repr

/-- The `normalize` package variable after `init()` ran under the given
GOOS (fs.go lines 40-59); `nfc` abstracts `norm.NFC.Bytes`.  The switch
has no default case, so the variable is nil (`none`) off darwin and
windows. -/
def normalizeFor (nfc : CPath → CPath) : GoOS → Option (CPath → CPath)
  | .darwin => some (fun p => nfc (goPathFn p))
  | .windows => some normalizeWin
  | _ => none

/-- The `denormalize` package variable after `init()` ran under the given
GOOS; `nfd` abstracts `norm.NFD.Bytes`. -/
def denormalizeFor (nfd : CPath → CPath) : GoOS → Option (CPath → CPath)
  | .darwin => some (fun p => nfd (goPathFn p))
  | .windows => some denormalizeWin
  | _ => none

/-! ## Claim C9: `Watch` shutdown (fs.go lines 492-557)

`Watch` spawns two goroutines: the done-handler (lines 522-529) waits on
`doneChan`, then runs `notify.Stop(in)`, `close(eventChan)`,
`close(errorChan)` in sequence; the forwarder (lines 533-550) ranges over
the buffer output and, per event, either skips it (ignored path or empty
translation), sends the translation error on `errorChan`, or sends the
translated event on `eventChan`.  `notify.Stop` does not close `in`, so
the forwarder keeps draining buffered events after it; nothing
synchronises the two goroutines, so an execution of the session is any
interleaving of the two op sequences. -/

inductive ChanId : Type where
  | events : ChanId
  | errors : ChanId
deriving DecidableEq, Repr

inductive WatchOp : Type where
  | stopWatcher : WatchOp
  | closeChan : ChanId → WatchOp
  | send : ChanId → WatchOp
deriving DecidableEq, Repr

/-- The done-handler's operations after the done signal (fs.go 523-528). -/
def doneHandlerOps : List WatchOp :=
  [.stopWatcher, .closeChan .events, .closeChan .errors]

/-- What the forwarder loop body does with one buffered raw event
(fs.go 534-549). -/
inductive TransOutcome : Type where
  | ignoredPath : TransOutcome
  | translated : TransOutcome
  | translationError : TransOutcome
  | emptyInfo : TransOutcome
deriving DecidableEq, Repr

def forwardOp : TransOutcome → Option WatchOp
  | .translated => some (.send .events)
  | .translationError => some (.send .errors)
  | .ignoredPath => none
  | .emptyInfo => none

/-- The forwarder's channel operations for a queue of buffered events. -/
def forwarderOps (outcomes : List TransOutcome) : List WatchOp :=
  outcomes.filterMap forwardOp

/-- An interleaving of two sequential op streams: the execution orders of
two unsynchronised goroutines. -/
inductive Interleaving : List WatchOp → List WatchOp → List WatchOp → Prop where
  | nil : Interleaving [] [] []
  | left {xs ys zs : List WatchOp} (x : WatchOp) :
      Interleaving xs ys zs → Interleaving (x :: xs) ys (x :: zs)
  | right {xs ys zs : List WatchOp} (y : WatchOp) :
      Interleaving xs ys zs → Interleaving xs (y :: ys) (y :: zs)

/-- A trace in which channel `c` is closed and later sent on. -/
def SendAfterClose (tr : List WatchOp) (c : ChanId) : Prop :=
  ∃ pre mid post, tr = pre ++ .closeChan c :: mid ++ .send c :: post

/-! ## Claim C6: `MoveNode` / `moveRecursively` (fs.go lines 370-417)

The in-memory backend (`afero.MemMapFs`) renames one entry at a time and
does not relocate the children of a renamed directory — which is exactly
why `MoveNode` falls back to `moveRecursively` on it.  The storage is
modelled flat, as the list of existing entry paths (character lists); a
path lies in the subtree of `oldPath` when `oldPath` is a prefix of it,
and `afero.Walk` enumerates that subtree in pre-order, the root first.
`Rename(a, b)` moves the single entry `a` to `b` (replacing `b`) and is
a no-op when `a` does not exist. -/

/-- Single-entry rename of the in-memory backend. -/
def renameFS (fs : List CPath) (a b : CPath) : List CPath :=
  if a ∈ fs then b :: fs.filter (fun p => p ≠ a ∧ p ≠ b) else fs

/-- Go `afero.Walk(c.FS, oldPath, ...)` collects every stored path in the
subtree of `oldPath`; the list order of `fs` is its enumeration order. -/
def walkSubtree (fs : List CPath) (root : CPath) : List CPath :=
  fs.filter (fun p => root.isPrefixOf p)

/-- Go `strings.TrimPrefix` on character lists. -/
def goTrimPre (s pre : CPath) : CPath :=
  if pre.isPrefixOf s then s.drop pre.length else s

/-- The body of the relocation loop (fs.go lines 403-412): `key` is
re-bound to `total - key`, the missing map entry `moves[total]` is the
empty string and is skipped, and the entry is renamed to
`newPath + strings.TrimPrefix(wPath, oldPath)`. -/
def moveStep (old new : CPath) (moves : List CPath) (total : Nat)
    (s : List CPath) (k : Nat) : List CPath :=
  match moves[total - k]? with
  | none => s
  | some w => renameFS s w (new ++ goTrimPre w old)

/-- Go `moveRecursively` (fs.go lines 389-417): walk the subtree, relocate
the collected entries at indexes `total-1, …, 1` (reverse enumeration
order, skipping the out-of-range index `total` and never touching index
`0`, the root), then rename the root itself. -/
def moveRecursively (fs : List CPath) (old new : CPath) : List CPath :=
  let moves := walkSubtree fs old
  let total := moves.length
  let fs1 := (List.range total).foldl (moveStep old new moves total) fs
  renameFS fs1 old new

/-- Go `MoveNode` (fs.go lines 370-386): when the source exists, a directory
on the in-memory backend is moved recursively, anything else by a single
`Rename`. -/
def MoveNode (memMap : Bool) (isDir : CPath → Bool) (fs : List CPath)
    (old new : CPath) : List CPath :=
  if old ∈ fs then
    if isDir old && memMap then moveRecursively fs old new
    else renameFS fs old new
  else fs

/-- Applying the per-entry relocation to a list of sources in order. -/
def applyMoves (old new : CPath) (fs : List CPath) (ws : List CPath) : List CPath :=
  ws.foldl (fun s w => renameFS s w (new ++ goTrimPre w old)) fs

/-! ## Theorems -/

/-! ## Claims C1, C3, C4: the Raw-Event Translator -/

/-- C1 (counterexample). The claim states that a Write-bitmask raw event
on a stat-able target yields a ChangeEvent of type Write.  At the
concrete input `event = notifyWrite` with a stat-able 2-byte file, the
translator emits type Create, not Write: fs.go line 197 tags both the
Create and the Write branch with `common.EventCreate`. -/
theorem write_event_translates_to_create_counterexample :
    notifyEventToEventInfo id id statOkFile "t" "" { path := "/f", event := notifyWrite }
      = .ok (some { time := "t", size := 2, folder := false, path := "/f", type := .create })
    ∧ EventType.create ≠ EventType.write := by
  exact ⟨rfl, by decide⟩

/-- C1 (amended). For every raw notification whose bitmask matches Create
or Write and whose target path is stat-able, the translator emits exactly
one ChangeEvent whose type is Create (for Create and Write bitmasks
alike) and whose size and isFolder fields come from the stat result. -/
theorem createWrite_event_translation (canon norm : String → String)
    (stat : String → Except StatErr FInfo) (nowT root : String)
    (ev : RawEvent) (i : FInfo)
    (hb : (isEventType EventTypeCreate ev.event || isEventType EventTypeWrite ev.event) = true)
    (hs : stat (goTrimPrefixStr (canon ev.path) root) = .ok i) :
    notifyEventToEventInfo canon norm stat nowT root ev
      = .ok (some { time := nowT, size := i.size, folder := i.isDir,
                    path := norm (goTrimPrefixStr (canon ev.path) root),
                    type := .create }) := by
  simp only [notifyEventToEventInfo, hb, hs, if_true]

/-- Witness for `createWrite_event_translation` at a concrete Write
event on a stat-able 2-byte regular file. -/
theorem createWrite_event_translation_witness :
    ((isEventType EventTypeCreate notifyWrite || isEventType EventTypeWrite notifyWrite) = true)
    ∧ notifyEventToEventInfo id id statOkFile "tw" "" { path := "/g", event := notifyWrite }
      = .ok (some { time := "tw", size := 2, folder := false, path := "/g", type := .create }) :=
  ⟨by decide,
    createWrite_event_translation id id statOkFile "tw" "" { path := "/g", event := notifyWrite }
      { size := 2, isDir := false } (by decide) rfl⟩

/-- C3 (counterexample). The claim quantifies over every raw notification
whose bitmask matches Rename.  The bitmask `notifyCreate ||| notifyRename`
matches Rename, yet on a vanished target the translator emits nothing
(`.ok none`) instead of the claimed Remove event, because fs.go line 181
gives the Create/Write branch priority over the Rename branch. -/
theorem rename_bitmask_overlap_counterexample :
    isEventType EventTypeRename (notifyCreate ||| notifyRename) = true
    ∧ notifyEventToEventInfo id id statNotFound "t" ""
        { path := "/f", event := notifyCreate ||| notifyRename } = .ok none
    ∧ ∀ info : EventInfo, Except.ok (some info) ≠
        (Except.ok none : Except StatErr (Option EventInfo)) := by
  refine ⟨by decide, rfl, ?_⟩
  intro info h
  exact Option.noConfusion (Except.ok.inj h)

/-- C3 (amended). For every raw notification whose bitmask matches Rename
and matches neither Create nor Write: if the stat of the target fails
with not-found, the translator emits a ChangeEvent of type Remove whose
size and folder fields are the zero values; if the stat succeeds, it
emits a ChangeEvent of type Rename with size and isFolder from the stat
result. -/
theorem rename_event_translation (canon norm : String → String)
    (stat : String → Except StatErr FInfo) (nowT root : String) (ev : RawEvent)
    (hr : isEventType EventTypeRename ev.event = true)
    (hc : isEventType EventTypeCreate ev.event = false)
    (hw : isEventType EventTypeWrite ev.event = false) :
    (stat (goTrimPrefixStr (canon ev.path) root) = .error .notFound →
      notifyEventToEventInfo canon norm stat nowT root ev
        = .ok (some { time := nowT, size := 0, folder := false,
                      path := norm (goTrimPrefixStr (canon ev.path) root),
                      type := .remove }))
    ∧ ∀ i : FInfo, stat (goTrimPrefixStr (canon ev.path) root) = .ok i →
      notifyEventToEventInfo canon norm stat nowT root ev
        = .ok (some { time := nowT, size := i.size, folder := i.isDir,
                      path := norm (goTrimPrefixStr (canon ev.path) root),
                      type := .rename }) := by
  constructor
  · intro hs
    simp [notifyEventToEventInfo, hr, hc, hw, hs]
  · intro i hs
    simp [notifyEventToEventInfo, hr, hc, hw, hs]

/-- Witness for `rename_event_translation` at a concrete pure-Rename
event whose target has vanished: a Remove event with zero size/folder
data is emitted. -/
theorem rename_event_translation_witness :
    isEventType EventTypeRename notifyRename = true
    ∧ notifyEventToEventInfo id id statNotFound "tr" "" { path := "/h", event := notifyRename }
      = .ok (some { time := "tr", size := 0, folder := false, path := "/h", type := .remove }) :=
  ⟨by decide,
    (rename_event_translation id id statNotFound "tr" "" { path := "/h", event := notifyRename }
      (by decide) (by decide) (by decide)).1 rfl⟩

/-- C4 (confirmed). For every raw Create or Write notification whose
target fails to stat: a not-found failure yields no event and no error
(`.ok none`), while any other stat failure is returned as an error (which
`Watch` then forwards to the error channel). -/
theorem createWrite_stat_failure_handling (canon norm : String → String)
    (stat : String → Except StatErr FInfo) (nowT root : String) (ev : RawEvent)
    (hb : (isEventType EventTypeCreate ev.event || isEventType EventTypeWrite ev.event) = true) :
    (stat (goTrimPrefixStr (canon ev.path) root) = .error .notFound →
      notifyEventToEventInfo canon norm stat nowT root ev = .ok none)
    ∧ ∀ m : String, stat (goTrimPrefixStr (canon ev.path) root) = .error (.other m) →
      notifyEventToEventInfo canon norm stat nowT root ev = .error (.other m) := by
  constructor
  · intro hs
    simp only [notifyEventToEventInfo, hb, hs, if_true]
  · intro m hs
    simp only [notifyEventToEventInfo, hb, hs, if_true]

/-- Witness for `createWrite_stat_failure_handling` at a concrete Create
event: a vanished target is ignored, a permission failure is returned. -/
theorem createWrite_stat_failure_handling_witness :
    ((isEventType EventTypeCreate notifyCreate || isEventType EventTypeWrite notifyCreate) = true)
    ∧ notifyEventToEventInfo id id statNotFound "tc" "" { path := "/k", event := notifyCreate }
        = .ok none
    ∧ notifyEventToEventInfo id id statDenied "tc" "" { path := "/k", event := notifyCreate }
        = .error (.other "permission denied") :=
  ⟨by decide,
    (createWrite_stat_failure_handling id id statNotFound "tc" ""
      { path := "/k", event := notifyCreate } (by decide)).1 rfl,
    (createWrite_stat_failure_handling id id statDenied "tc" ""
      { path := "/k", event := notifyCreate } (by decide)).2 "permission denied" rfl⟩

theorem pipeStep_output {ε : Type} (capacity : Nat) (s : PipeState ε)
    (elem : ε) (d1 d2 : Nat) :
    pipeOutput (pipeStep capacity s elem d1 d2) = pipeOutput s ++ [elem] := by
  unfold pipeStep
  dsimp only
  split
  · split
    · simp [pipeOutput]
    · simp [pipeOutput]
  · split
    · simp [pipeOutput]
    · simp [pipeOutput]

theorem pipeRun_output {ε : Type} (capacity : Nat) (input : List ε) :
    ∀ (s : PipeState ε) (sched : Nat → Nat × Nat),
      pipeOutput (pipeRun capacity s input sched) = pipeOutput s ++ input := by
  induction input with
  | nil => intro s sched; simp [pipeRun]
  | cons e rest ih =>
      intro s sched
      rw [pipeRun, ih, pipeStep_output]
      simp

/-- C2 (confirmed). For every finite input sequence fed to `PipeChan`
(any initial capacity, any drain schedule — i.e. any consumer pace), the
output stream emitted before `outputCh` is closed is exactly the input
sequence: FIFO, lossless, duplicate-free; in particular the output is
closed only after the last buffered element has been emitted. -/
theorem pipeChan_fifo_lossless {ε : Type} (capacity : Nat) (input : List ε)
    (sched : Nat → Nat × Nat) :
    pipeOutput (pipeRun capacity (pipeInit ε capacity) input sched) = input := by
  rw [pipeRun_output]
  simp [pipeInit, pipeOutput]

/-- C7 (confirmed). `CreateNode` returns an error exactly on Leaf nodes;
for a Collection whose path does not exist it creates the directory with
every missing ancestor and, when a non-empty identifier was supplied,
writes the hidden marker file containing it. -/
theorem createNode_directories_only (s : FSState) (n : TreeNode) (b : Bool) :
    ((∃ msg, CreateNode s n b = .error msg) ↔ n.IsLeaf = true)
    ∧ (∀ s2 : FSState, n.IsLeaf = false → statExists s n.path = false →
        CreateNode s n b = .ok s2 →
        (∀ q : Seg, q <+: n.path → q ≠ [] → q ∈ s2.dirs)
        ∧ (n.uuid ≠ "" → (n.path ++ [pydioMarker], n.uuid) ∈ s2.files)) := by
  constructor
  · constructor
    · intro hmsg
      by_contra hleaf
      rcases hmsg with ⟨msg, hmsg⟩
      simp only [Bool.not_eq_true] at hleaf
      by_cases hex : statExists s n.path = true
      · simp [CreateNode, hleaf, hex] at hmsg
      · simp only [Bool.not_eq_true] at hex
        by_cases hu : n.uuid = "" <;> simp [CreateNode, hleaf, hex, hu] at hmsg
    · intro hleaf
      exact ⟨"This is a DataSyncTarget, use PutNode for leafs instead of CreateNode",
        by simp [CreateNode, hleaf]⟩
  · intro s2 hleaf hex hok
    have hdirs : ∀ q : Seg, q <+: n.path → q ≠ [] → q ∈ (mkdirAll s n.path).dirs := by
      intro q hq hne
      simp only [mkdirAll, List.mem_append, List.mem_filter]
      exact Or.inl ⟨(List.mem_inits q n.path).mpr hq, by simpa [List.isEmpty_iff] using hne⟩
    by_cases hu : n.uuid = ""
    · simp only [CreateNode, hleaf, hex, hu, Bool.false_eq_true, if_false, ne_eq,
        not_true_eq_false, if_neg, Except.ok.injEq, reduceCtorEq] at hok
      refine ⟨?_, fun hcontra => absurd hu hcontra⟩
      intro q hq hne
      rw [← hok]
      exact hdirs q hq hne
    · simp only [CreateNode, hleaf, hex, hu, Bool.false_eq_true, if_false, ne_eq,
        not_false_eq_true, if_pos, Except.ok.injEq, reduceCtorEq] at hok
      constructor
      · intro q hq hne
        rw [← hok]
        simp only [writeFile]
        exact hdirs q hq hne
      · intro _
        rw [← hok]
        simp [writeFile]

/-- Witness for `createNode_directories_only`: creating the Collection
node `a/b` with identifier `u1` in empty storage rejects no error, creates
`a` and `a/b`, and writes the marker file. -/
theorem createNode_directories_only_witness :
    TreeNode.IsLeaf { path := ["a", "b"], type := .collection, uuid := "u1" } = false
    ∧ statExists fsEmpty ["a", "b"] = false
    ∧ ((["a"] ∈ (writeFile (mkdirAll fsEmpty ["a", "b"]) (["a", "b"] ++ [pydioMarker]) "u1").dirs
        ∧ ["a", "b"] ∈ (writeFile (mkdirAll fsEmpty ["a", "b"]) (["a", "b"] ++ [pydioMarker]) "u1").dirs)
       ∧ (["a", "b"] ++ [pydioMarker], "u1")
          ∈ (writeFile (mkdirAll fsEmpty ["a", "b"]) (["a", "b"] ++ [pydioMarker]) "u1").files) := by
  refine ⟨rfl, rfl, ?_⟩
  have h := (createNode_directories_only fsEmpty
    { path := ["a", "b"], type := .collection, uuid := "u1" } false).2
    (writeFile (mkdirAll fsEmpty ["a", "b"]) (["a", "b"] ++ [pydioMarker]) "u1") rfl rfl rfl
  exact ⟨⟨h.1 ["a"] (by decide) (by decide), h.1 ["a", "b"] (by decide) (by decide)⟩,
    h.2 (by decide)⟩

/-- C10 (counterexample). The claim quantifies over every node whose path
already exists.  For a Leaf node whose path exists, `CreateNode` and
`UpdateNode` return the leaf-rejection error rather than nil. -/
theorem createNode_existing_leaf_counterexample :
    statExists { dirs := [], files := [(["f"], "x")] } ["f"] = true
    ∧ CreateNode { dirs := [], files := [(["f"], "x")] }
        { path := ["f"], type := .leaf, uuid := "" } false
      = .error "This is a DataSyncTarget, use PutNode for leafs instead of CreateNode"
    ∧ UpdateNode { dirs := [], files := [(["f"], "x")] }
        { path := ["f"], type := .leaf, uuid := "" }
      = .error "This is a DataSyncTarget, use PutNode for leafs instead of CreateNode" :=
  ⟨rfl, rfl, rfl⟩

/-- C10 (amended). For every Collection node whose path already exists in
storage, `CreateNode` and `UpdateNode` return nil and leave the storage
state completely unchanged; in particular the existing directory's marker
file is never rewritten, even when the node carries a different non-empty
identifier, so `UpdateNode` can never change an existing directory's
identifier.  (For a Leaf node they return an error, also leaving the
state unchanged.) -/
theorem createNode_updateNode_existing_noop (s : FSState) (n : TreeNode) (b : Bool)
    (hcol : n.type = .collection) (hex : statExists s n.path = true) :
    CreateNode s n b = .ok s ∧ UpdateNode s n = .ok s := by
  have hleaf : n.IsLeaf = false := by simp [TreeNode.IsLeaf, hcol]
  constructor
  · simp [CreateNode, hleaf, hex]
  · simp [UpdateNode, CreateNode, hleaf, hex]

/-- Witness for `createNode_updateNode_existing_noop`: the directory `d`
exists with persisted marker `old`; create/update with identifier `new`
returns nil and the stored marker is still `old`. -/
theorem createNode_updateNode_existing_noop_witness :
    statExists { dirs := [["d"]], files := [(["d", pydioMarker], "old")] } ["d"] = true
    ∧ CreateNode { dirs := [["d"]], files := [(["d", pydioMarker], "old")] }
        { path := ["d"], type := .collection, uuid := "new" } false
      = .ok { dirs := [["d"]], files := [(["d", pydioMarker], "old")] }
    ∧ UpdateNode { dirs := [["d"]], files := [(["d", pydioMarker], "old")] }
        { path := ["d"], type := .collection, uuid := "new" }
      = .ok { dirs := [["d"]], files := [(["d", pydioMarker], "old")] } :=
  ⟨rfl,
    (createNode_updateNode_existing_noop
      { dirs := [["d"]], files := [(["d", pydioMarker], "old")] }
      { path := ["d"], type := .collection, uuid := "new" } false rfl rfl).1,
    (createNode_updateNode_existing_noop
      { dirs := [["d"]], files := [(["d", pydioMarker], "old")] }
      { path := ["d"], type := .collection, uuid := "new" } false rfl rfl).2⟩

/-- C8 (code bug). At the failing input — a path that already exists —
`GetWriterOn` acquires the handle through `FS.Open` (fs.go line 428),
which per the storage contract opens for reading only, so bytes written
through the returned writer do not reach the file's content; the claim
(and the function's own name and `io.WriteCloser` return type) require an
open-for-write. -/
theorem getWriterOn_existing_path_opens_readonly :
    statExists { dirs := [], files := [(["f"], "v1")] } ["f"] = true
    ∧ GetWriterOn { dirs := [], files := [(["f"], "v1")] } ["f"]
      = (.readOnly, { dirs := [], files := [(["f"], "v1")] })
    ∧ OpenMode.readOnly ≠ OpenMode.createWrite := by
  exact ⟨rfl, rfl, by decide⟩

theorem dropWhile_slash_eq_self (rest : CPath) (h : rest.head? ≠ some '/') :
    rest.dropWhile (fun c => c == '/') = rest := by
  cases rest with
  | nil => rfl
  | cons c t =>
      have hc : c ≠ '/' := by
        intro hc
        exact h (by simp [hc])
      simp [List.dropWhile_cons, hc]

theorem map_sep_slash_id (rest : CPath) (h : '\\' ∉ rest) :
    rest.map (sepToSlash ∘ slashToSep) = rest := by
  induction rest with
  | nil => rfl
  | cons c t ih =>
      have hc : c ≠ '\\' := fun hcc => h (by simp [hcc])
      have ht : '\\' ∉ t := fun htt => h (List.mem_cons_of_mem _ htt)
      have hcomp : sepToSlash (slashToSep c) = c := by
        by_cases hcs : c = '/'
        · simp [slashToSep, sepToSlash, hcs]
        · simp [slashToSep, sepToSlash, hcs, hc]
      simp [hcomp, ih ht]

/-- C5 (counterexample). The round-trip fails on Windows at the concrete
canonical path `/a`: `denormalize` yields `\a`, and `normalize` prepends
a fresh leading `/` before substituting the backslash, producing `//a`. -/
theorem pathNormalizer_roundtrip_counterexample :
    normalizeWin (denormalizeWin ['/', 'a']) = ['/', '/', 'a']
    ∧ ['/', '/', 'a'] ≠ ['/', 'a'] :=
  ⟨rfl, by decide⟩

/-- C5 (amended). The normalizer pair is installed only for darwin and
windows (`nil` on every other GOOS, e.g. linux).  The empty path is still
normalized to the root path.  On Windows the two functions are total but
not mutually inverse: for every canonical path with a single leading
separator and no backslash, the round-trip prepends one extra leading
separator. -/
theorem pathNormalizer_windows_roundtrip (rest : CPath)
    (hh : rest.head? ≠ some '/') (hb : '\\' ∉ rest) :
    normalizeWin (denormalizeWin ('/' :: rest)) = '/' :: '/' :: rest
    ∧ normalizeWin [] = ['/']
    ∧ (∀ nfc : CPath → CPath, normalizeFor nfc .linux = none)
    ∧ (∀ nfd : CPath → CPath, denormalizeFor nfd .linux = none) := by
  refine ⟨?_, rfl, fun _ => rfl, fun _ => rfl⟩
  have h1 : denormalizeWin ('/' :: rest) = '\\' :: rest.map slashToSep := by
    simp [denormalizeWin, goPathFn, dropWhile_slash_eq_self rest hh, slashToSep]
  rw [h1]
  have h2 : goPathFn ('\\' :: rest.map slashToSep)
      = '/' :: '\\' :: rest.map slashToSep := by
    simp [goPathFn, List.dropWhile_cons]
  rw [normalizeWin, h2]
  simp only [List.map_cons, List.map_map]
  rw [map_sep_slash_id rest hb]
  simp [sepToSlash]

/-- Witness for `pathNormalizer_windows_roundtrip` at `rest = "a"`. -/
theorem pathNormalizer_windows_roundtrip_witness :
    (['a'] : CPath).head? ≠ some '/'
    ∧ '\\' ∉ (['a'] : CPath)
    ∧ normalizeWin (denormalizeWin ['/', 'a']) = ['/', '/', 'a'] :=
  ⟨by decide, by decide,
    (pathNormalizer_windows_roundtrip ['a'] (by decide) (by decide)).1⟩

/-- C9 (code bug evidence). With a single translated event still buffered
when the done signal arrives, the unsynchronised goroutines admit the
execution `stop; close(eventChan); close(errorChan); eventChan <- e`: a
send on the event channel after it is closed (a panic in Go).  The claim
— close only after the forwarder stopped writing and the buffer drained —
is the evident intent, and fs.go lines 522-529 violate it by closing both
channels immediately after `notify.Stop`. -/
theorem watch_send_after_close_reachable :
    ∃ tr : List WatchOp,
      Interleaving doneHandlerOps (forwarderOps [.translated]) tr
      ∧ SendAfterClose tr .events := by
  refine ⟨[.stopWatcher, .closeChan .events, .closeChan .errors, .send .events], ?_, ?_⟩
  · exact .left _ (.left _ (.left _ (.right _ .nil)))
  · exact ⟨[.stopWatcher], [.closeChan .errors], [], rfl⟩

/-- The index-juggling loop of `moveRecursively` relocates exactly the
walked entries of index `total-1` down to `1`: the tail of the
enumeration in reverse order. -/
theorem foldl_range_moveStep (old new : CPath) (moves : List CPath) :
    ∀ j : Nat, j ≤ moves.length → ∀ s : List CPath,
      (List.range j).foldl (moveStep old new moves moves.length) s
      = applyMoves old new s ((moves.drop (moves.length - j + 1)).reverse) := by
  intro j
  induction j with
  | zero =>
      intro _ s
      simp [applyMoves, List.drop_eq_nil_of_le]
  | succ j ih =>
      intro hj s
      rw [List.range_succ, List.foldl_append, List.foldl_cons, List.foldl_nil]
      rw [ih (by omega) s]
      cases j with
      | zero =>
          have hnone : moves[moves.length - 0]? = none := by
            simp
          have h1 : moves.length - 1 + 1 = moves.length := by omega
          have h0 : moves.length - 0 + 1 = moves.length + 1 := by omega
          rw [moveStep, hnone, h0, h1]
          simp [applyMoves, List.drop_eq_nil_of_le]
      | succ i =>
          have hlt : moves.length - (i + 1) < moves.length := by omega
          have hsome : moves[moves.length - (i + 1)]? =
              some (moves[moves.length - (i + 1)]) := by
            simp [List.getElem?_eq_getElem hlt]
          have harg : moves.length - (i + 1 + 1) + 1 = moves.length - (i + 1) := by
            omega
          rw [moveStep, hsome, harg]
          simp only [applyMoves, List.foldl_reverse]
          rw [List.drop_eq_getElem_cons hlt]
          rfl

theorem renameFS_mem (fs : List CPath) (a b p : CPath) (ha : a ∈ fs) :
    p ∈ renameFS fs a b ↔ (p = b ∨ (p ∈ fs ∧ p ≠ a ∧ p ≠ b)) := by
  simp [renameFS, ha, List.mem_filter, and_assoc]

theorem goTrimPre_eq_drop {old w : CPath} (h : old <+: w) :
    goTrimPre w old = w.drop old.length := by
  simp [goTrimPre, List.isPrefixOf_iff_prefix.mpr h]

theorem append_goTrimPre {old w : CPath} (h : old <+: w) :
    old ++ goTrimPre w old = w := by
  obtain ⟨t, rfl⟩ := h
  rw [goTrimPre_eq_drop (List.prefix_append old t), List.drop_left]

theorem goTrimPre_self (a : CPath) : goTrimPre a a = [] := by
  simp [goTrimPre, List.isPrefixOf_iff_prefix.mpr (List.prefix_refl a)]

theorem not_both_prefixes {old new x : CPath} (h1 : ¬ old <+: new) (h2 : ¬ new <+: old)
    (ho : old <+: x) : ¬ new <+: x := fun hn =>
  ( List.prefix_or_prefix_of_prefix ho hn).elim (fun h => h1 h) (fun h => h2 h)

/-- Relocating a list of distinct subtree entries (each with prefix
`old`, present in the state, with fresh targets) replaces exactly those
entries by their images under `new`. -/
theorem applyMoves_mem (old new : CPath) (h1 : ¬ old <+: new) (h2 : ¬ new <+: old) :
    ∀ ws s : List CPath,
      ws.Nodup →
      (∀ w ∈ ws, old <+: w) →
      (∀ w ∈ ws, w ∈ s) →
      (∀ w ∈ ws, new ++ goTrimPre w old ∉ s) →
      ∀ p, p ∈ applyMoves old new s ws ↔
        ((p ∈ s ∧ p ∉ ws) ∨ ∃ w ∈ ws, p = new ++ goTrimPre w old) := by
  intro ws
  induction ws with
  | nil =>
      intro s _ _ _ _ p
      simp [applyMoves]
  | cons w ws ih =>
      intro s hnd hpre hmem hfresh p
      have hw_mem : w ∈ s := hmem w (List.mem_cons_self w ws)
      have hw_pre : old <+: w := hpre w (List.mem_cons_self w ws)
      have hw_notin : w ∉ ws := (List.nodup_cons.mp hnd).1
      have hstep : applyMoves old new s (w :: ws)
          = applyMoves old new (renameFS s w (new ++ goTrimPre w old)) ws := rfl
      have hchar : ∀ q, q ∈ renameFS s w (new ++ goTrimPre w old)
          ↔ (q = new ++ goTrimPre w old
             ∨ (q ∈ s ∧ q ≠ w ∧ q ≠ new ++ goTrimPre w old)) :=
        fun q => renameFS_mem s w _ q hw_mem
      have hmem1 : ∀ x ∈ ws, x ∈ renameFS s w (new ++ goTrimPre w old) := by
        intro x hx
        have hx_pre : old <+: x := hpre x (List.mem_cons_of_mem w hx)
        have hx_ne_t : x ≠ new ++ goTrimPre w old := by
          intro hxe
          have hnp : new <+: x := by
            rw [hxe]
            exact List.prefix_append new _
          exact not_both_prefixes h1 h2 hx_pre hnp
        have hx_ne_w : x ≠ w := fun hxe => hw_notin (hxe ▸ hx)
        exact (hchar x).mpr (Or.inr ⟨hmem x (List.mem_cons_of_mem w hx), hx_ne_w, hx_ne_t⟩)
      have hfresh1 : ∀ x ∈ ws,
          new ++ goTrimPre x old ∉ renameFS s w (new ++ goTrimPre w old) := by
        intro x hx hcontra
        have hx_pre : old <+: x := hpre x (List.mem_cons_of_mem w hx)
        rcases (hchar _).mp hcontra with he | ⟨hins, _, _⟩
        · have hxw : x = w := by
            have hdr : goTrimPre x old = goTrimPre w old := List.append_cancel_left he
            calc x = old ++ goTrimPre x old := (append_goTrimPre hx_pre).symm
              _ = old ++ goTrimPre w old := by rw [hdr]
              _ = w := append_goTrimPre hw_pre
          exact hw_notin (hxw ▸ hx)
        · exact hfresh x (List.mem_cons_of_mem w hx) hins
      have hih := ih (renameFS s w (new ++ goTrimPre w old)) (List.nodup_cons.mp hnd).2
        (fun x hx => hpre x (List.mem_cons_of_mem w hx)) hmem1 hfresh1 p
      rw [hstep, hih, hchar p]
      have hAE : p = new ++ goTrimPre w old → p ∉ ws := by
        intro hA hin
        have hnp : new <+: p := by
          rw [hA]
          exact List.prefix_append new _
        exact not_both_prefixes h1 h2 (hpre p (List.mem_cons_of_mem w hin)) hnp
      have hBD : p ∈ s → p ≠ new ++ goTrimPre w old := by
        intro hB hA
        exact hfresh w (List.mem_cons_self w ws) (hA ▸ hB)
      have hsplit : (∃ x ∈ w :: ws, p = new ++ goTrimPre x old)
          ↔ (p = new ++ goTrimPre w old ∨ ∃ x ∈ ws, p = new ++ goTrimPre x old) := by
        simp [List.mem_cons, or_and_right, exists_or]
      rw [hsplit, List.mem_cons]
      constructor
      · rintro (⟨hA | ⟨hB, hC, hD⟩, hE⟩ | hP)
        · exact Or.inr (Or.inl hA)
        · exact Or.inl ⟨hB, fun hcon => hcon.elim (fun h => hC h) (fun h => hE h)⟩
        · exact Or.inr (Or.inr hP)
      · rintro (⟨hB, hCE⟩ | hA | hP)
        · exact Or.inl ⟨Or.inr ⟨hB, fun h => hCE (Or.inl h), hBD hB⟩,
            fun h => hCE (Or.inr h)⟩
        · exact Or.inl ⟨Or.inl hA, hAE hA⟩
        · exact Or.inr hP

/-- Go `moveRecursively` equals: relocate the walked entries after the root
in reverse enumeration order, then relocate the root itself (whose target
`newPath + TrimPrefix(oldPath, oldPath)` is `newPath`). -/
theorem moveRecursively_eq (fs : List CPath) (old new : CPath) :
    moveRecursively fs old new
      = applyMoves old new fs (((walkSubtree fs old).drop 1).reverse ++ [old]) := by
  simp only [moveRecursively]
  rw [foldl_range_moveStep old new (walkSubtree fs old) (walkSubtree fs old).length
    le_rfl fs]
  have h1 : (walkSubtree fs old).length - (walkSubtree fs old).length + 1 = 1 := by
    omega
  rw [h1]
  simp only [applyMoves, List.foldl_append, List.foldl_cons, List.foldl_nil]
  rw [goTrimPre_self, List.append_nil]

/-- C6 (confirmed). On the backend without atomic cross-subtree rename
(the in-memory backend), moving an existing directory relocates the
walked descendants in reverse pre-order-enumeration order (the root, at
index 0, is relocated last), each to `newPath` with the matching suffix,
and the end state holds every former subtree entry of `oldPath` at the
corresponding path beneath `newPath`, with `oldPath` no longer existing.
Hypotheses: the stored paths are distinct, the walk discovers the root
first (pre-order), `oldPath` and `newPath` are prefix-incomparable (a
cross-subtree move) and nothing is stored beneath `newPath` yet. -/
theorem moveNode_recursive_end_state (memMap : Bool) (isDir : CPath → Bool)
    (fs : List CPath) (old new : CPath)
    (hnd : fs.Nodup)
    (hhead : (walkSubtree fs old).head? = some old)
    (hdir : isDir old = true) (hmm : memMap = true)
    (h1 : ¬ old <+: new) (h2 : ¬ new <+: old)
    (hfreshFS : ∀ p ∈ fs, ¬ new <+: p) :
    MoveNode memMap isDir fs old new
      = applyMoves old new fs (((walkSubtree fs old).drop 1).reverse ++ [old])
    ∧ (∀ p, p ∈ MoveNode memMap isDir fs old new ↔
        ((p ∈ fs ∧ ¬ old <+: p) ∨ ∃ t, old ++ t ∈ fs ∧ p = new ++ t))
    ∧ old ∉ MoveNode memMap isDir fs old new := by
  obtain ⟨ms, hms⟩ : ∃ ms, walkSubtree fs old = old :: ms := by
    cases hmv : walkSubtree fs old with
    | nil =>
        rw [hmv] at hhead
        exact absurd hhead (by simp)
    | cons m rest =>
        rw [hmv] at hhead
        simp only [List.head?_cons, Option.some.injEq] at hhead
        exact ⟨rest, by rw [hhead]⟩
  have hwalk_iff : ∀ x, x ∈ walkSubtree fs old ↔ (x ∈ fs ∧ old <+: x) := by
    intro x
    simp [walkSubtree, List.mem_filter, List.isPrefixOf_iff_prefix]
  have hold_mem : old ∈ fs := by
    have : old ∈ walkSubtree fs old := by
      rw [hms]
      exact List.mem_cons_self old ms
    exact ((hwalk_iff old).mp this).1
  have hmove_eq : MoveNode memMap isDir fs old new = moveRecursively fs old new := by
    simp [MoveNode, hold_mem, hdir, hmm]
  have hwalk_nodup : (walkSubtree fs old).Nodup := List.Nodup.filter _ hnd
  have hms_nodup : ms.Nodup ∧ old ∉ ms := by
    rw [hms] at hwalk_nodup
    exact ⟨(List.nodup_cons.mp hwalk_nodup).2, (List.nodup_cons.mp hwalk_nodup).1⟩
  have hws_iff : ∀ x, x ∈ ms.reverse ++ [old] ↔ (x ∈ fs ∧ old <+: x) := by
    intro x
    rw [← hwalk_iff x, hms]
    simp [or_comm]
  have hws_nodup : (ms.reverse ++ [old]).Nodup := by
    rw [List.nodup_append]
    refine ⟨List.nodup_reverse.mpr hms_nodup.1, List.nodup_singleton old, ?_⟩
    intro x hx hxo
    rw [List.mem_singleton] at hxo
    exact hms_nodup.2 (hxo ▸ List.mem_reverse.mp hx)
  have happly := applyMoves_mem old new h1 h2 (ms.reverse ++ [old]) fs hws_nodup
    (fun w hw => ((hws_iff w).mp hw).2)
    (fun w hw => ((hws_iff w).mp hw).1)
    (fun w _ hcontra => hfreshFS _ hcontra (List.prefix_append new _))
  have hdrop : ((walkSubtree fs old).drop 1).reverse ++ [old] = ms.reverse ++ [old] := by
    rw [hms]
    rfl
  have hresult : MoveNode memMap isDir fs old new
      = applyMoves old new fs (ms.reverse ++ [old]) := by
    rw [hmove_eq, moveRecursively_eq, hdrop]
  have hmem_iff : ∀ p, p ∈ MoveNode memMap isDir fs old new ↔
      ((p ∈ fs ∧ ¬ old <+: p) ∨ ∃ t, old ++ t ∈ fs ∧ p = new ++ t) := by
    intro p
    rw [hresult, happly p]
    constructor
    · rintro (⟨hin, hnotws⟩ | ⟨w, hw, hpw⟩)
      · refine Or.inl ⟨hin, fun hpre => hnotws ((hws_iff p).mpr ⟨hin, hpre⟩)⟩
      · obtain ⟨hwin, hwpre⟩ := (hws_iff w).mp hw
        refine Or.inr ⟨goTrimPre w old, ?_, hpw⟩
        rw [append_goTrimPre hwpre]
        exact hwin
    · rintro (⟨hin, hnpre⟩ | ⟨t, htin, hpt⟩)
      · exact Or.inl ⟨hin, fun hws => hnpre ((hws_iff p).mp hws).2⟩
      · refine Or.inr ⟨old ++ t, (hws_iff (old ++ t)).mpr ⟨htin, List.prefix_append old t⟩, ?_⟩
        rw [goTrimPre_eq_drop (List.prefix_append old t), List.drop_left]
        exact hpt
  refine ⟨by rw [hresult, hdrop], hmem_iff, ?_⟩
  intro hcontra
  rcases (hmem_iff old).mp hcontra with ⟨_, hnpre⟩ | ⟨t, _, hot⟩
  · exact hnpre (List.prefix_refl old)
  · exact h2 ⟨t, hot.symm⟩

/-- Witness for `moveNode_recursive_end_state`: moving directory `a`
(with entries `a`, `ax`, `axy`) to `b` on the in-memory backend leaves
`bxy` present, keeps the unrelated `c`, and removes `a`. -/
theorem moveNode_recursive_end_state_witness :
    ['a'] ∉ MoveNode true (fun _ => true)
        [['a'], ['a', 'x'], ['a', 'x', 'y'], ['c']] ['a'] ['b']
    ∧ ['b', 'x', 'y'] ∈ MoveNode true (fun _ => true)
        [['a'], ['a', 'x'], ['a', 'x', 'y'], ['c']] ['a'] ['b']
    ∧ ['c'] ∈ MoveNode true (fun _ => true)
        [['a'], ['a', 'x'], ['a', 'x', 'y'], ['c']] ['a'] ['b'] := by
  have h := moveNode_recursive_end_state true (fun _ => true)
    [['a'], ['a', 'x'], ['a', 'x', 'y'], ['c']] ['a'] ['b']
    (by decide) (by decide) rfl rfl (by decide) (by decide) (by decide)
  exact ⟨h.2.2,
    (h.2.1 ['b', 'x', 'y']).mpr (Or.inr ⟨['x', 'y'], by decide, rfl⟩),
    (h.2.1 ['c']).mpr (Or.inl ⟨by decide, by decide⟩)⟩

